import Mathlib

/-!
Verification of the decision-bound-model (DBM) fitting and selection engine of
the cat_learn_automaticity repository (code/inspect_results.py), together with
the session-resume logic of the 2026_s1 experiment script (code/run_exp.py).

Numeric payloads (stimulus coordinates, negative log-likelihoods, BIC values)
are modelled over the rationals; the transcendental primitives (the standard
normal CDF, the natural logarithm) and the derivative-free optimizer are
external numeric routines and enter the embedding as explicit parameters of a
numeric environment, as the specification treats them (narrow interfaces with
determinism contracts).
-/

/-- One row of the canonical long-format trial table (inspect_results.py):
`subject`, raw `day` label, raw `trial` column, stimulus coordinates, category
and response labels (recorded here as whether each equals the label A),
reaction time, and the optional Stroop columns `ns_correct_side` / `ns_resp`. -/
structure TrialRow where
  subject : Nat
  day : Nat
  trial : Nat
  x : Rat
  y : Rat
  catA : Bool
  respA : Bool
  rt : Rat
  ns_correct_side : Option Rat
  ns_resp : Option Rat
deriving DecidableEq, Repr, Inhabited

/-- `block_size = 25` (inspect_results.py line 198). -/
def block_size : Nat := 25

/-- Sort key of `d.sort_values(by=['subject', 'day', 'trial'])`: lexicographic
comparison on (subject, raw day, raw trial). -/
def keyLE (a b : TrialRow) : Bool :=
  a.subject < b.subject ||
    (a.subject = b.subject &&
      (a.day < b.day || (a.day = b.day && a.trial ≤ b.trial)))

/-- Insert a row into a `keyLE`-sorted list, before any row it ties with. -/
def insertRow (a : TrialRow) : List TrialRow → List TrialRow
  | [] => [a]
  | b :: bs => if keyLE a b then a :: b :: bs else b :: insertRow a bs

/-- Stable sort of the trial rows by (subject, day, trial); pandas's
multi-column `sort_values` is a stable lexicographic sort. -/
def sortRows (l : List TrialRow) : List TrialRow := l.foldr insertRow []

/-- A trial row of the processed table `d`, annotated with the derived columns:
the densely ranked day, the within-subject cumulative trial index
(`d.groupby(['subject']).cumcount()`), and the block index. -/
structure PTrial where
  row : TrialRow
  dayRank : Nat
  trialIdx : Nat
  block : Nat
deriving DecidableEq, Repr, Inhabited

/-- Dense rank of a raw day label among a subject's raw day labels
(`d.groupby('subject')['day'].rank(method='dense')`): the number of distinct
day labels of that subject that are ≤ the given label. -/
def denseDayRank (rows : List TrialRow) (s d : Nat) : Nat :=
  (((rows.filter (fun r => r.subject = s)).map (fun r => r.day)).dedup).countP
    (fun d' => d' ≤ d)

/-- The processed training table `d` (inspect_results.py lines 200-208): rows
sorted by (subject, day, trial); `day` densely re-ranked per subject; `trial`
re-assigned as the cumulative count within subject; `block` assigned as
`trial // block_size` (the groupby on (subject, day) at line 206 only scopes
the lambda, which divides each trial value by `block_size` elementwise). -/
def pipelineD (rows : List TrialRow) : List PTrial :=
  let s := sortRows rows
  (List.range s.length).map (fun i =>
    let r := s.getD i default
    let tr := (s.take i).countP (fun q => q.subject = r.subject)
    { row := r
      dayRank := denseDayRank s r.subject r.day
      trialIdx := tr
      block := tr / block_size })

/-- Trial index within the participant's day: the count of preceding rows of
the processed table with the same subject and the same ranked day. This is the
quantity the specification calls the trial index within day; it is written
from the spec's words for comparison with the code's `trialIdx` column. -/
def withinDayIdx (p : List PTrial) (i : Nat) : Nat :=
  (p.take i).countP (fun q =>
    q.row.subject = (p.getD i default).row.subject ∧
      q.dayRank = (p.getD i default).dayRank)

/-- Numeric environment of the fitting engine. The standard normal CDF `phi`,
the natural-logarithm stand-in `logq`, the clamping epsilon, the
derivative-free optimizer behind the spec's narrow interface
`minimize(objective, initial_guess) -> (params, value)`, and the reproducible
starting-guess policy (a deterministic function of the model name and the
observed stimulus coordinates) are external numeric routines; the engine is
parametric in them, and every run with the same environment and trial table is
the same function application. -/
structure NumEnv where
  phi : Rat → Rat
  logq : Rat → Rat
  eps : Rat
  optimize : (List Rat → Rat) → List Rat → List Rat × Rat
  start : String → List (Rat × Rat) → List Rat

/-- `side_sign`: `+1` for side 0 and `-1` for side 1. -/
def sideSign (side : Nat) : Rat := if side = 1 then -1 else 1

/-- Clamp a proposed probability into `[eps, 1 - eps]`. -/
def clampProb (eps x : Rat) : Rat := max eps (min (1 - eps) x)

/-- Modelled from the spec: the Likelihood Evaluator's response probability
`p(A) = Φ(-side_sign * d / σ)`, clamped to `[ε, 1-ε]` (the function itself
lives in the repository's `util_func_dbm` module, which is not among the
visible sources). -/
def respProbA (env : NumEnv) (side : Nat) (d sigma : Rat) : Rat :=
  clampProb env.eps (env.phi (-(sideSign side) * d / sigma))

/-- Large penalty returned instead of a likelihood when the optimizer
proposes `σ ≤ 0` (the spec's never-raise contract). -/
def nllPenalty : Rat := 10 ^ 9

/-- Modelled from the spec: negative log-likelihood of a block of trials,
each given as a (discriminant value, response-is-A) pair. -/
def nllSum (env : NumEnv) (side : Nat) (sigma : Rat) (ds : List (Rat × Bool)) : Rat :=
  if sigma ≤ 0 then nllPenalty
  else
    -((ds.map (fun t =>
        if t.2 then env.logq (respProbA env side t.1 sigma)
        else env.logq (1 - respProbA env side t.1 sigma))).sum)

/-- Modelled from the spec: unidimensional-x objective; parameters are the
bound position on x and the noise scale; discriminant `d = x - bound`
(`nll_unix` of the repository's `util_func_dbm`, not among the sources). -/
def nll_unix (env : NumEnv) (params : List Rat) (data : List (Rat × Rat × Bool))
    (side : Nat) : Rat :=
  nllSum env side (params.getD 1 0)
    (data.map (fun t => (t.1 - params.getD 0 0, t.2.2)))

/-- Modelled from the spec: unidimensional-y objective; discriminant
`d = y - bound` (`nll_uniy` of `util_func_dbm`). -/
def nll_uniy (env : NumEnv) (params : List Rat) (data : List (Rat × Rat × Bool))
    (side : Nat) : Rat :=
  nllSum env side (params.getD 1 0)
    (data.map (fun t => (t.2.1 - params.getD 0 0, t.2.2)))

/-- Modelled from the spec: general-linear-classifier objective; parameters
are slope, intercept and noise scale; discriminant
`d = slope * x + intercept - y` (`nll_glc` of `util_func_dbm`). -/
def nll_glc (env : NumEnv) (params : List Rat) (data : List (Rat × Rat × Bool))
    (side : Nat) : Rat :=
  nllSum env side (params.getD 2 0)
    (data.map (fun t => (params.getD 0 0 * t.1 + params.getD 1 0 - t.2.1, t.2.2)))

/-- Objective signature handed to the fitting loop: parameter vector, the
group's (x, y, response-is-A) triples, and the side flag. -/
abbrev ObjFun := List Rat → List (Rat × Rat × Bool) → Nat → Rat

/-- One Fit Result of the spec's data model: model name, side flag, parameter
count `k`, the sample size `n` plugged into BIC, the achieved negative
log-likelihood, the fitted parameter vector, and the BIC. -/
structure FitRec where
  model : String
  side : Nat
  k : Nat
  n : Nat
  nll : Rat
  p : List Rat
  bic : Rat
deriving DecidableEq, Repr, Inhabited

/-- Modelled from the spec: `fit_dbm` of the repository's `util_func_dbm`
module (not among the visible sources), reconstructed from its call site in
inspect_results.py (lines 276-298) and spec §4.4: walk the model list in step
with the `side`, `k` and `model_names` lists (the lists are combined
positionwise, so entries of `side` and `k` beyond the length of the model
list are unused), minimize each objective from the reproducible start, and
record `BIC = k * ln(n) + 2 * NLL_min` with the `n` handed in by the caller. -/
def fit_dbm (env : NumEnv) (data : List PTrial) (models : List ObjFun)
    (side : List Nat) (k : List Nat) (n : Nat) (model_names : List String) :
    List FitRec :=
  let dd := data.map (fun t => (t.row.x, t.row.y, t.row.respA))
  ((models.zip side).zip (k.zip model_names)).map (fun mi =>
    let res := env.optimize (fun th => mi.1.1 th dd mi.1.2)
      (env.start mi.2.2 (dd.map (fun t => (t.1, t.2.1))))
    { model := mi.2.2
      side := mi.1.2
      k := mi.2.1
      n := n
      nll := res.2
      p := res.1
      bic := (mi.2.1 : Rat) * env.logq (n : Rat) + 2 * res.2 })

/-- The `models` list of the call site (inspect_results.py lines 276-283). -/
def models_list (env : NumEnv) : List ObjFun :=
  [nll_unix env, nll_unix env, nll_uniy env, nll_uniy env, nll_glc env, nll_glc env]

/-- The `side` list of the call site (line 284); its last four entries exceed
the length of the model list. -/
def side_list : List Nat := [0, 1, 0, 1, 0, 1, 0, 1, 2, 3]

/-- The `k` list of the call site (line 285); its last four entries exceed
the length of the model list. -/
def k_list : List Nat := [2, 2, 2, 2, 3, 3, 3, 3, 3, 3]

/-- The `model_names` list of the call site (lines 287-294). -/
def model_names : List String :=
  ["nll_unix_0", "nll_unix_1", "nll_uniy_0", "nll_uniy_1", "nll_glc_0", "nll_glc_1"]

/-- A Fit Result tagged with its (participant, day) group, as produced by
`d.groupby(["subject", "day"]).apply(fit_dbm, ...).reset_index()`. -/
structure FitRow where
  subject : Nat
  day : Nat
  res : FitRec
deriving DecidableEq, Repr, Inhabited

/-- Group key of a processed trial: (subject, ranked day). -/
def fitKey (r : PTrial) : Nat × Nat := (r.row.subject, r.dayRank)

/-- The (participant, day) groups of the processed trial table. -/
def fitKeys (d : List PTrial) : List (Nat × Nat) := (d.map fitKey).dedup

/-- The trials of one (participant, day) group. -/
def groupTrials (d : List PTrial) (g : Nat × Nat) : List PTrial :=
  d.filter (fun r => fitKey r = g)

/-- The Model Fitting Engine: one `fit_dbm` run per (participant, day) group
of the processed trial table, with the call site's model/side/k/name lists and
`n = block_size` (inspect_results.py lines 286, 296-298). -/
def fitAll (env : NumEnv) (d : List PTrial) : List FitRow :=
  (fitKeys d).flatMap (fun g =>
    (fit_dbm env (groupTrials d g) (models_list env) side_list k_list
        block_size model_names).map
      (fun fr => { subject := g.1, day := g.2, res := fr }))
/-- A row of the fit-results table handed to the Model Selector: subject, day,
model name, BIC and parameter vector. `nllCol` records whether the negative
log-likelihood column is still present: the fit branch passes the full fit
table, while the load branch's column selection
`dbm[["subject", "day", "model", "bic", "p"]]` (line 302) drops it. -/
structure DbmRow where
  subject : Nat
  day : Nat
  model : String
  bic : Rat
  p : List Rat
  nllCol : Option Rat
deriving DecidableEq, Repr, Inhabited

/-- The fit branch's selector input: the freshly fitted table. -/
def toDbmFit (r : FitRow) : DbmRow :=
  { subject := r.subject, day := r.day, model := r.res.model, bic := r.res.bic
    p := r.res.p, nllCol := some r.res.nll }

/-- The load branch's selector input: the persisted table restricted to the
columns subject, day, model, bic, p. -/
def toDbmLoad (r : FitRow) : DbmRow :=
  { subject := r.subject, day := r.day, model := r.res.model, bic := r.res.bic
    p := r.res.p, nllCol := none }

/-- Group key of a fit-results row. -/
def rowKey (r : DbmRow) : Nat × Nat := (r.subject, r.day)

/-- The (participant, day) groups of a fit-results table. -/
def dbmKeys (t : List DbmRow) : List (Nat × Nat) := (t.map rowKey).dedup

/-- The rows of one (participant, day) group of a fit-results table. -/
def groupRows (t : List DbmRow) (g : Nat × Nat) : List DbmRow :=
  t.filter (fun r => rowKey r = g)

/-- Lexicographically smaller of two model names (Python/NumPy order strings
by their character sequences; the comparison is on the underlying character
lists). -/
def strMin (a b : String) : String := if a.data ≤ b.data then a else b

/-- `bic.min()` over one group of fit-results rows. -/
def minBic : List DbmRow → Rat
  | [] => 0
  | r :: rs => rs.foldl (fun a q => min a q.bic) r.bic

/-- `assign_best_model` (inspect_results.py lines 304-309):
`np.unique(model[bic == bic.min()])[0]`, i.e. the lexicographically least
model name among the rows attaining the minimum BIC of the group. -/
def assign_best_model (x : List DbmRow) : String :=
  match (x.filter (fun r => r.bic = minBic x)).map (fun r => r.model) with
  | [] => ""
  | c :: cs => cs.foldl strMin c

/-- A selector output row before the strategy-class column is added:
`dbm[["subject", "day", "bic", "best_model"]]` (line 315). -/
structure BestPre where
  subject : Nat
  day : Nat
  bic : Rat
  best_model : String
deriving DecidableEq, Repr, Inhabited

/-- Splitting a character sequence at a separator character, as Python's
`str.split` does for a one-character separator. -/
def splitOnChar (c : Char) : List Char → List (List Char)
  | [] => [[]]
  | a :: rest =>
    match splitOnChar c rest with
    | [] => if a = c then [[], []] else [[a]]
    | h :: t => if a = c then [] :: h :: t else (a :: h) :: t

/-- The family component of a model name:
`best_model.str.split("_").str[1]` (line 317). -/
def familyOf (m : String) : String := ⟨(splitOnChar '_' m.data).getD 1 []⟩

/-- The strategy class of a winning model name (lines 317-321): rows whose
family is not `glc` become `rule-based`, rows whose family is `glc` become
`procedural`. -/
def classOf (m : String) : String :=
  if familyOf m = "glc" then "procedural" else "rule-based"

/-- A Best-Model Assignment row: subject, day, the winning BIC and model, and
the strategy class. -/
structure BestRow where
  subject : Nat
  day : Nat
  bic : Rat
  best_model : String
  best_model_class : String
deriving DecidableEq, Repr, Inhabited

/-- One group's contribution to the selector output (lines 311-315): assign
the group its best model, keep the rows whose model equals it, and project to
the columns subject, day, bic, best_model. -/
def bestGroup (t : List DbmRow) (g : Nat × Nat) : List BestPre :=
  (groupRows t g).filter
      (fun r => r.model = assign_best_model (groupRows t g)) |>.map
    (fun r => { subject := g.1, day := g.2, bic := r.bic
                best_model := assign_best_model (groupRows t g) })

/-- Per-group best-model extraction over all groups. -/
def bestRows (t : List DbmRow) : List BestPre :=
  (dbmKeys t).flatMap (bestGroup t)

/-- Add the strategy-class column to a selector output row (lines 317-321). -/
def addClass (b : BestPre) : BestRow :=
  { subject := b.subject, day := b.day, bic := b.bic
    best_model := b.best_model, best_model_class := classOf b.best_model }

/-- The Model Selector (lines 311-323): per-group best-model extraction,
`drop_duplicates`, and the strategy-class column. -/
def selectBest (t : List DbmRow) : List BestRow :=
  (bestRows t).dedup.map addClass

/-- An at-home data file after the manual day/subject corrections: its unique
raw `day` label and its trial rows. -/
structure HomeFile where
  day : Nat
  rows : List TrialRow
deriving DecidableEq, Repr, Inhabited

/-- `df_train_rec` routing (inspect_results.py lines 167-169): a file is a
training file when its day label is not 22, 23 or 24. -/
def df_train_rec (files : List HomeFile) : List HomeFile :=
  files.filter (fun f => !(f.day = 22 || f.day = 23 || f.day = 24))

/-- `df_dt_rec` routing (lines 171-173): dual-task files have day label 22. -/
def df_dt_rec (files : List HomeFile) : List HomeFile :=
  files.filter (fun f => f.day = 22)

/-- `df_bs_rec` routing (lines 175-177): button-switch files have day label
23 or 24. -/
def df_bs_rec (files : List HomeFile) : List HomeFile :=
  files.filter (fun f => f.day = 23 || f.day = 24)

/-- The concatenated training trials (`d = pd.concat(df_train_rec, ...)`). -/
def trainRows (files : List HomeFile) : List TrialRow :=
  (df_train_rec files).flatMap (fun f => f.rows)

/-- Erase the Stroop columns of a processed trial; the fitting engine never
reads them. -/
def scrubStroop (p : PTrial) : PTrial :=
  { p with row := { p.row with ns_correct_side := none, ns_resp := none } }
/-- The Best-Model Assignments of the fit branch: selector applied to the
freshly fitted table. -/
def dbmOutFit (env : NumEnv) (d : List PTrial) : List BestRow :=
  selectBest ((fitAll env d).map toDbmFit)

/-- The Best-Model Assignments of the load branch: selector applied to the
persisted table restricted to the columns subject, day, model, bic, p. -/
def dbmOutLoad (env : NumEnv) (d : List PTrial) : List BestRow :=
  selectBest ((fitAll env d).map toDbmLoad)

/-- `n_train = 550` (2026_s1 run_exp.py line 128). -/
def n_train : Nat := 550

/-- `n_test = 100` (line 129). -/
def n_test : Nat := 100

/-- `n_total = n_train + n_test` (line 130). -/
def n_total : Nat := n_train + n_test

/-- `trial = n_done - 1` (2026_s1 run_exp.py line 196): the trial counter as
set by the resume handling from the number of already-recorded rows. -/
def resumeTrial (n_done : Nat) : Int := (n_done : Int) - 1

/-- State of the 2026_s1 session relevant to trial numbering and saving: the
trial counter, the `trial_data` rows accumulated this session (represented by
their trial numbers), and the contents of the day's data file. -/
structure SessionState where
  trial : Int
  rows : List Int
  file : List Int
deriving DecidableEq, Repr, Inhabited

/-- State at the top of the main loop: the resume handling (line 196) set
`trial = n_done - 1` (see `resumeTrial`), but the state-machine setup at line
307 assigns `trial = -1` over it regardless of `n_done`; `trial_data` starts
empty and the day file still holds the previously recorded rows. -/
def startSession (n_done : Nat) (oldFile : List Int) : SessionState :=
  { trial := -1, rows := [], file := oldFile }

/-- One completed trial: the ITI state increments `trial` (line 379), and the
feedback state appends the trial's record to `trial_data` and writes
`pd.DataFrame(trial_data).to_csv(full_path, ...)` — only this session's
accumulated rows — over the day file (lines 497-510). -/
def doTrial (s : SessionState) : SessionState :=
  let t := s.trial + 1
  { trial := t, rows := s.rows ++ [t], file := s.rows ++ [t] }

/-- Run `m` completed trials of the session. -/
def runTrials (s : SessionState) : Nat → SessionState
  | 0 => s
  | m + 1 => doTrial (runTrials s m)

/-- A concrete numeric environment used to evaluate the engine on concrete
inputs: identity stand-ins for the CDF and the logarithm, and an optimizer
that returns its starting point. -/
def exEnv : NumEnv :=
  { phi := id, logq := id, eps := 1 / 1000
    optimize := fun _ th => (th, 0), start := fun _ _ => [] }

/-- A concrete trial row. -/
def mkRow (s d t : Nat) (x y : Rat) : TrialRow :=
  { subject := s, day := d, trial := t, x := x, y := y, catA := true
    respA := true, rt := 0, ns_correct_side := none, ns_resp := none }

/-- A (participant, day) group of 30 trials: its trial count differs from
`block_size = 25`. -/
def c1rows : List TrialRow := (List.range 30).map (fun i => mkRow 1 1 i i 0)

/-- A participant whose first day has 26 trials and whose second day has one:
the second day's first trial is the participant's 27th. -/
def c7rows : List TrialRow :=
  (List.range 26).map (fun i => mkRow 1 1 i i 0) ++ [mkRow 1 2 0 0 0]

/-- A one-trial trial table. -/
def wRows1 : List TrialRow := [mkRow 1 1 0 0 0]

/-- A concrete fit-results group with a BIC tie between `nll_glc_0` and
`nll_unix_0`. -/
def w2rows : List DbmRow :=
  [{ subject := 1, day := 1, model := "nll_unix_0", bic := 50, p := [], nllCol := none },
   { subject := 1, day := 1, model := "nll_glc_0", bic := 50, p := [], nllCol := none },
   { subject := 1, day := 1, model := "nll_uniy_0", bic := 60, p := [], nllCol := none }]

/-- Concrete at-home files: a training day and a dual-task day. -/
def wFiles : List HomeFile :=
  [{ day := 1, rows := [mkRow 3 1 0 0 0] }, { day := 22, rows := [mkRow 3 22 0 0 0] }]
/-- Drop the negative-log-likelihood column of a selector input row; the load
branch's table differs from the fit branch's only in this column. -/
def stripNll (r : DbmRow) : DbmRow :=
  { r with nllCol := none }

theorem foldlMin_le_init {α : Type} [LinearOrder α] (l : List α) (x : α) :
    l.foldl min x ≤ x := by
  induction l generalizing x with
  | nil => exact le_refl x
  | cons a as ih => exact le_trans (ih (min x a)) (min_le_left x a)

theorem foldlMin_le_mem {α : Type} [LinearOrder α] {l : List α} {y : α}
    (h : y ∈ l) (x : α) : l.foldl min x ≤ y := by
  induction l generalizing x with
  | nil => cases h
  | cons a as ih =>
    rcases List.mem_cons.mp h with rfl | h'
    · exact le_trans (foldlMin_le_init as (min x y)) (min_le_right x y)
    · exact ih h' (min x a)

theorem foldlMin_eq_or_mem {α : Type} [LinearOrder α] (l : List α) (x : α) :
    l.foldl min x = x ∨ l.foldl min x ∈ l := by
  induction l generalizing x with
  | nil => exact Or.inl rfl
  | cons a as ih =>
    rcases ih (min x a) with h | h
    · rcases min_choice x a with h' | h'
      · rw [List.foldl_cons, h, h']
        exact Or.inl rfl
      · rw [List.foldl_cons, h, h']
        exact Or.inr (List.mem_cons_self a as)
    · exact Or.inr (List.mem_cons_of_mem a h)

theorem strMin_choice (a b : String) : strMin a b = a ∨ strMin a b = b := by
  unfold strMin
  split
  · exact Or.inl rfl
  · exact Or.inr rfl

theorem strMin_le_left (a b : String) : (strMin a b).data ≤ a.data := by
  unfold strMin
  split
  · exact le_refl _
  · exact le_of_not_le (by assumption)

theorem strMin_le_right (a b : String) : (strMin a b).data ≤ b.data := by
  unfold strMin
  split
  · assumption
  · exact le_refl _

theorem foldlStrMin_le_init (l : List String) (x : String) :
    (l.foldl strMin x).data ≤ x.data := by
  induction l generalizing x with
  | nil => exact le_refl _
  | cons a as ih => exact le_trans (ih (strMin x a)) (strMin_le_left x a)

theorem foldlStrMin_le_mem {l : List String} {y : String} (h : y ∈ l)
    (x : String) : (l.foldl strMin x).data ≤ y.data := by
  induction l generalizing x with
  | nil => cases h
  | cons a as ih =>
    rcases List.mem_cons.mp h with rfl | h'
    · exact le_trans (foldlStrMin_le_init as (strMin x y)) (strMin_le_right x y)
    · exact ih h' (strMin x a)

theorem foldlStrMin_eq_or_mem (l : List String) (x : String) :
    l.foldl strMin x = x ∨ l.foldl strMin x ∈ l := by
  induction l generalizing x with
  | nil => exact Or.inl rfl
  | cons a as ih =>
    rcases ih (strMin x a) with h | h
    · rcases strMin_choice x a with h' | h'
      · rw [List.foldl_cons, h, h']
        exact Or.inl rfl
      · rw [List.foldl_cons, h, h']
        exact Or.inr (List.mem_cons_self a as)
    · exact Or.inr (List.mem_cons_of_mem a h)
theorem minBic_le {t : List DbmRow} {r : DbmRow} (h : r ∈ t) : minBic t ≤ r.bic := by
  cases t with
  | nil => cases h
  | cons a as =>
    have hfold : as.foldl (fun x q => min x q.bic) a.bic =
        (as.map (fun q => q.bic)).foldl min a.bic := by
      rw [List.foldl_map]
    rcases List.mem_cons.mp h with rfl | h'
    · rw [minBic, hfold]
      exact foldlMin_le_init _ _
    · rw [minBic, hfold]
      exact foldlMin_le_mem (List.mem_map_of_mem (fun q => q.bic) h') _

theorem minBic_attained {t : List DbmRow} (h : t ≠ []) :
    ∃ r ∈ t, r.bic = minBic t := by
  cases t with
  | nil => exact absurd rfl h
  | cons a as =>
    have hfold : minBic (a :: as) = (as.map (fun q => q.bic)).foldl min a.bic := by
      rw [minBic, List.foldl_map]
    rcases foldlMin_eq_or_mem (as.map (fun q => q.bic)) a.bic with h' | h'
    · exact ⟨a, List.mem_cons_self a as, by rw [hfold, h']⟩
    · obtain ⟨r, hr, hrb⟩ := List.mem_map.mp h'
      exact ⟨r, List.mem_cons_of_mem a hr, by rw [hfold, hrb]⟩

theorem abm_attained {rows : List DbmRow} (h : rows ≠ []) :
    ∃ r ∈ rows, r.model = assign_best_model rows ∧ r.bic = minBic rows := by
  obtain ⟨r0, hr0, hb0⟩ := minBic_attained h
  have hr0f : r0 ∈ rows.filter (fun r => r.bic = minBic rows) :=
    List.mem_filter.mpr ⟨hr0, by simpa using hb0⟩
  have hm : r0.model ∈ (rows.filter (fun r => r.bic = minBic rows)).map
      (fun r => r.model) := List.mem_map_of_mem _ hr0f
  rcases hc : (rows.filter (fun r => r.bic = minBic rows)).map (fun r => r.model)
      with _ | ⟨c, cs⟩
  · rw [hc] at hm
    cases hm
  · have habm : assign_best_model rows = cs.foldl strMin c := by
      rw [assign_best_model, hc]
    have hmem : cs.foldl strMin c ∈ c :: cs := by
      rcases foldlStrMin_eq_or_mem cs c with h' | h'
      · rw [h']
        exact List.mem_cons_self c cs
      · exact List.mem_cons_of_mem c h'
    rw [← hc] at hmem
    obtain ⟨r, hr, hrm⟩ := List.mem_map.mp hmem
    have hrf := List.mem_filter.mp hr
    exact ⟨r, hrf.1, by rw [habm, hrm], by simpa using hrf.2⟩

theorem abm_minimal {rows : List DbmRow} {r : DbmRow} (hr : r ∈ rows)
    (hb : r.bic = minBic rows) :
    (assign_best_model rows).data ≤ r.model.data := by
  have hrf : r ∈ rows.filter (fun q => q.bic = minBic rows) :=
    List.mem_filter.mpr ⟨hr, by simpa using hb⟩
  have hm : r.model ∈ (rows.filter (fun q => q.bic = minBic rows)).map
      (fun q => q.model) := List.mem_map_of_mem _ hrf
  rcases hc : (rows.filter (fun q => q.bic = minBic rows)).map (fun q => q.model)
      with _ | ⟨c, cs⟩
  · rw [hc] at hm
    cases hm
  · have habm : assign_best_model rows = cs.foldl strMin c := by
      rw [assign_best_model, hc]
    rw [hc] at hm
    rw [habm]
    rcases List.mem_cons.mp hm with h' | h'
    · rw [← h']
      exact foldlStrMin_le_init cs r.model
    · exact foldlStrMin_le_mem h' c
theorem filter_flatMap_of_not_mem {K R : Type} [DecidableEq K]
    (keys : List K) (f : K → List R) (keyOf : R → K)
    (hf : ∀ g r, r ∈ f g → keyOf r = g) (g : K) (hg : g ∉ keys) :
    (keys.flatMap f).filter (fun r => keyOf r = g) = [] := by
  induction keys with
  | nil => rfl
  | cons a as ih =>
    rw [List.flatMap_cons, List.filter_append]
    have h1 : (f a).filter (fun r => keyOf r = g) = [] := by
      rw [List.filter_eq_nil_iff]
      intro r hr
      have := hf a r hr
      simp only [decide_eq_true_eq]
      rw [this]
      intro hag
      exact hg (hag ▸ List.mem_cons_self a as)
    rw [h1, List.nil_append]
    exact ih (fun hgas => hg (List.mem_cons_of_mem a hgas))

theorem filter_flatMap_of_mem {K R : Type} [DecidableEq K]
    (keys : List K) (f : K → List R) (keyOf : R → K)
    (hf : ∀ g r, r ∈ f g → keyOf r = g) (g : K) (hnd : keys.Nodup)
    (hg : g ∈ keys) :
    (keys.flatMap f).filter (fun r => keyOf r = g) = f g := by
  induction keys with
  | nil => cases hg
  | cons a as ih =>
    rw [List.flatMap_cons, List.filter_append]
    rcases List.mem_cons.mp hg with rfl | hgas
    · have h1 : (f g).filter (fun r => keyOf r = g) = f g := by
        rw [List.filter_eq_self]
        intro r hr
        simp only [decide_eq_true_eq]
        exact hf g r hr
      have h2 : (as.flatMap f).filter (fun r => keyOf r = g) = [] :=
        filter_flatMap_of_not_mem as f keyOf hf g (List.Nodup.not_mem hnd)
      rw [h1, h2, List.append_nil]
    · have hag : a ≠ g := by
        intro h
        exact List.Nodup.not_mem hnd (h ▸ hgas)
      have h1 : (f a).filter (fun r => keyOf r = g) = [] := by
        rw [List.filter_eq_nil_iff]
        intro r hr
        simp only [decide_eq_true_eq]
        rw [hf a r hr]
        exact hag
      rw [h1, List.nil_append]
      exact ih (List.Nodup.of_cons hnd) hgas

theorem filter_model_singleton {rows : List DbmRow} {b : String}
    (hnd : (rows.map (fun q => q.model)).Nodup) {r : DbmRow} (hr : r ∈ rows)
    (hm : r.model = b) : rows.filter (fun q => q.model = b) = [r] := by
  induction rows with
  | nil => cases hr
  | cons a as ih =>
    have hna : a.model ∉ as.map (fun q => q.model) := by
      simpa using List.Nodup.not_mem hnd
    rcases List.mem_cons.mp hr with rfl | hras
    · have h2 : as.filter (fun q => q.model = b) = [] := by
        rw [List.filter_eq_nil_iff]
        intro q hq hqb
        simp only [decide_eq_true_eq] at hqb
        exact hna (hm ▸ hqb ▸ List.mem_map_of_mem (fun q => q.model) hq)
      rw [List.filter_cons_of_pos (by simpa using hm), h2]
    · have hab : ¬(a.model = b) := by
        intro h
        exact hna (h ▸ hm ▸ List.mem_map_of_mem (fun q => q.model) hras)
      rw [List.filter_cons_of_neg (by simpa using hab)]
      exact ih (List.nodup_cons.mp (by simpa using hnd)).2 hras

theorem nodup_flatMap_of_keys {K R : Type} (keys : List K) (f : K → List R)
    (keyOf : R → K) (hf : ∀ g r, r ∈ f g → keyOf r = g)
    (hone : ∀ g, (f g).Nodup) (hnd : keys.Nodup) : (keys.flatMap f).Nodup := by
  induction keys with
  | nil => exact List.nodup_nil
  | cons a as ih =>
    rw [List.flatMap_cons]
    refine List.Nodup.append (hone a) (ih (List.Nodup.of_cons hnd)) ?_
    intro r hra hrs
    obtain ⟨g, hg, hrg⟩ := List.mem_flatMap.mp hrs
    have h1 := hf a r hra
    have h2 := hf g r hrg
    exact List.Nodup.not_mem hnd (h1 ▸ h2 ▸ hg)

theorem countP_eq_one_of_nodup {K : Type} [DecidableEq K] {keys : List K}
    (hnd : keys.Nodup) {g : K} (hg : g ∈ keys) :
    keys.countP (fun g' => g' = g) = 1 := by
  induction keys with
  | nil => cases hg
  | cons a as ih =>
    rcases List.mem_cons.mp hg with rfl | hgas
    · rw [List.countP_cons_of_pos _ _ (by simp)]
      have : as.countP (fun g' => g' = g) = 0 := by
        rw [List.countP_eq_zero]
        intro q hq
        simp only [decide_eq_true_eq]
        intro h
        exact List.Nodup.not_mem hnd (h ▸ hq)
      rw [this]
    · have hag : ¬(a = g) := by
        intro h
        exact List.Nodup.not_mem hnd (h ▸ hgas)
      rw [List.countP_cons_of_neg _ _ (by simpa using hag)]
      exact ih (List.Nodup.of_cons hnd) hgas

theorem countP_eq_zero_of_not_mem {K : Type} [DecidableEq K] {keys : List K}
    {g : K} (hg : g ∉ keys) : keys.countP (fun g' => g' = g) = 0 := by
  rw [List.countP_eq_zero]
  intro q hq
  simp only [decide_eq_true_eq]
  intro h
  exact hg (h ▸ hq)
theorem groupRows_ne_nil {t : List DbmRow} {g : Nat × Nat}
    (hg : g ∈ dbmKeys t) : groupRows t g ≠ [] := by
  obtain ⟨r, hr, hkey⟩ := List.mem_map.mp (List.mem_dedup.mp hg)
  have : r ∈ groupRows t g := List.mem_filter.mpr ⟨hr, by simpa using hkey⟩
  intro hnil
  rw [hnil] at this
  cases this

theorem groupRows_eq_nil {t : List DbmRow} {g : Nat × Nat}
    (hg : g ∉ dbmKeys t) : groupRows t g = [] := by
  rw [groupRows, List.filter_eq_nil_iff]
  intro r hr
  simp only [decide_eq_true_eq]
  intro hkey
  exact hg (List.mem_dedup.mpr (hkey ▸ List.mem_map_of_mem rowKey hr))

theorem bestGroup_key {t : List DbmRow} {g : Nat × Nat} {b : BestPre}
    (hb : b ∈ bestGroup t g) : (b.subject, b.day) = g := by
  obtain ⟨r, _, hrb⟩ := List.mem_map.mp hb
  rw [← hrb]

theorem bestGroup_single {t : List DbmRow}
    (hw : ∀ g', ((groupRows t g').map (fun q => q.model)).Nodup)
    {g : Nat × Nat} (hg : g ∈ dbmKeys t) :
    ∃ r ∈ groupRows t g, bestGroup t g =
      [{ subject := g.1, day := g.2, bic := r.bic
         best_model := assign_best_model (groupRows t g) }] := by
  obtain ⟨r, hr, hrm, _⟩ := abm_attained (groupRows_ne_nil hg)
  refine ⟨r, hr, ?_⟩
  rw [bestGroup, filter_model_singleton (hw g) hr hrm, List.map_cons, List.map_nil]

theorem bestGroup_nil {t : List DbmRow} {g : Nat × Nat}
    (hg : g ∉ dbmKeys t) : bestGroup t g = [] := by
  rw [bestGroup, groupRows_eq_nil hg]
  rfl

theorem dbmKeys_strip (t : List DbmRow) :
    dbmKeys (t.map stripNll) = dbmKeys t := by
  rw [dbmKeys, List.map_map]
  rfl

theorem groupRows_strip (t : List DbmRow) (g : Nat × Nat) :
    groupRows (t.map stripNll) g = (groupRows t g).map stripNll := by
  rw [groupRows, List.filter_map]
  rfl

theorem minBic_strip (rows : List DbmRow) :
    minBic (rows.map stripNll) = minBic rows := by
  cases rows with
  | nil => rfl
  | cons a as =>
    rw [List.map_cons, minBic, minBic, List.foldl_map]
    rfl

theorem abm_strip (rows : List DbmRow) :
    assign_best_model (rows.map stripNll) = assign_best_model rows := by
  have h : ((rows.map stripNll).filter
        (fun r => r.bic = minBic (rows.map stripNll))).map (fun r => r.model) =
      (rows.filter (fun r => r.bic = minBic rows)).map (fun r => r.model) := by
    rw [minBic_strip, List.filter_map, List.map_map]
    rfl
  rw [assign_best_model, assign_best_model, h]

theorem bestGroup_strip (t : List DbmRow) (g : Nat × Nat) :
    bestGroup (t.map stripNll) g = bestGroup t g := by
  rw [bestGroup, bestGroup, groupRows_strip, abm_strip, List.filter_map,
    List.map_map]
  rfl

theorem selectBest_strip (t : List DbmRow) :
    selectBest (t.map stripNll) = selectBest t := by
  rw [selectBest, selectBest, bestRows, bestRows, dbmKeys_strip]
  have h : ∀ g, bestGroup (t.map stripNll) g = bestGroup t g := bestGroup_strip t
  rw [funext h]
theorem mem_fitAll {env : NumEnv} {d : List PTrial} {fr : FitRow}
    (h : fr ∈ fitAll env d) :
    ∃ g ∈ fitKeys d, ∃ rc ∈ fit_dbm env (groupTrials d g) (models_list env)
      side_list k_list block_size model_names,
      fr = { subject := g.1, day := g.2, res := rc } := by
  obtain ⟨g, hg, hfr⟩ := List.mem_flatMap.mp h
  obtain ⟨rc, hrc, hfr'⟩ := List.mem_map.mp hfr
  exact ⟨g, hg, rc, hrc, hfr'.symm⟩

theorem fit_dbm_fields {env : NumEnv} {data : List PTrial}
    {models : List ObjFun} {side k : List Nat} {n : Nat} {names : List String}
    {rc : FitRec} (h : rc ∈ fit_dbm env data models side k n names) :
    rc.n = n ∧ rc.bic = (rc.k : Rat) * env.logq (n : Rat) + 2 * rc.nll ∧
      rc.model ∈ names := by
  obtain ⟨⟨⟨m, s⟩, kk, nm⟩, hmi, hrc⟩ := List.mem_map.mp h
  have hnm : nm ∈ names := (List.of_mem_zip (List.of_mem_zip hmi).2).2
  rw [← hrc]
  exact ⟨rfl, rfl, hnm⟩

theorem fit_dbm_proj (env : NumEnv) (data : List PTrial) (n : Nat) :
    (fit_dbm env data (models_list env) side_list k_list n model_names).map
      (fun r => (r.model, r.side, r.k)) =
    [("nll_unix_0", 0, 2), ("nll_unix_1", 1, 2), ("nll_uniy_0", 0, 2),
     ("nll_uniy_1", 1, 2), ("nll_glc_0", 0, 3), ("nll_glc_1", 1, 3)] := rfl

theorem fitAll_filter_key {env : NumEnv} {d : List PTrial} {g : Nat × Nat}
    (hg : g ∈ fitKeys d) :
    (fitAll env d).filter (fun r => (r.subject, r.day) = g) =
      (fit_dbm env (groupTrials d g) (models_list env) side_list k_list
        block_size model_names).map
        (fun fr => { subject := g.1, day := g.2, res := fr }) := by
  refine filter_flatMap_of_mem (fitKeys d) _
    (fun r : FitRow => (r.subject, r.day)) ?_ g (List.nodup_dedup _) hg
  intro g' r hr
  obtain ⟨rc, _, hrc⟩ := List.mem_map.mp hr
  rw [← hrc]

theorem scrub_coords (data : List PTrial) :
    (data.map scrubStroop).map (fun t => (t.row.x, t.row.y, t.row.respA)) =
      data.map (fun t => (t.row.x, t.row.y, t.row.respA)) := by
  rw [List.map_map]
  rfl

theorem fit_dbm_scrub (env : NumEnv) (data : List PTrial)
    (models : List ObjFun) (side k : List Nat) (n : Nat)
    (names : List String) :
    fit_dbm env (data.map scrubStroop) models side k n names =
      fit_dbm env data models side k n names := by
  rw [fit_dbm, fit_dbm, scrub_coords]

theorem fitKey_scrub (d : List PTrial) :
    d.map (fun t => fitKey (scrubStroop t)) = d.map fitKey := rfl

theorem fitKeys_scrub (d : List PTrial) :
    fitKeys (d.map scrubStroop) = fitKeys d := by
  rw [fitKeys, List.map_map]
  rfl

theorem groupTrials_scrub (d : List PTrial) (g : Nat × Nat) :
    groupTrials (d.map scrubStroop) g = (groupTrials d g).map scrubStroop := by
  rw [groupTrials, List.filter_map]
  rfl

theorem fitAll_scrub (env : NumEnv) (d : List PTrial) :
    fitAll env (d.map scrubStroop) = fitAll env d := by
  rw [fitAll, fitAll, fitKeys_scrub]
  have h : ∀ g, (fit_dbm env (groupTrials (d.map scrubStroop) g)
      (models_list env) side_list k_list block_size model_names).map
        (fun fr => ({ subject := g.1, day := g.2, res := fr } : FitRow)) =
      (fit_dbm env (groupTrials d g) (models_list env) side_list k_list
        block_size model_names).map
        (fun fr => ({ subject := g.1, day := g.2, res := fr } : FitRow)) := by
    intro g
    rw [groupTrials_scrub, fit_dbm_scrub]
  rw [funext h]
theorem mem_selectBest {t : List DbmRow} {r : BestRow} (h : r ∈ selectBest t) :
    ∃ b ∈ bestRows t, r = addClass b := by
  obtain ⟨b, hb, hrb⟩ := List.mem_map.mp h
  exact ⟨b, List.mem_dedup.mp hb, hrb.symm⟩

theorem bestGroup_model {t : List DbmRow} {g : Nat × Nat} {b : BestPre}
    (hb : b ∈ bestGroup t g) : ∃ q ∈ t, q.model = b.best_model := by
  obtain ⟨q, hq, hqb⟩ := List.mem_map.mp hb
  have hq1 := List.mem_filter.mp hq
  refine ⟨q, List.mem_of_mem_filter hq1.1, ?_⟩
  rw [← hqb]
  simpa using hq1.2

theorem fitTable_model {env : NumEnv} {d : List PTrial} {q : DbmRow}
    (hq : q ∈ (fitAll env d).map toDbmFit) : q.model ∈ model_names := by
  obtain ⟨fr, hfr, hq'⟩ := List.mem_map.mp hq
  obtain ⟨g, _, rc, hrc, hfr'⟩ := mem_fitAll hfr
  have hm := (fit_dbm_fields hrc).2.2
  rw [← hq', hfr']
  exact hm

theorem doTrial_trial (s : SessionState) : (doTrial s).trial = s.trial + 1 := rfl

theorem doTrial_rows (s : SessionState) :
    (doTrial s).rows = s.rows ++ [s.trial + 1] := rfl

theorem doTrial_file (s : SessionState) :
    (doTrial s).file = s.rows ++ [s.trial + 1] := rfl

theorem runTrials_spec (n_done : Nat) (oldFile : List Int) (m : Nat) :
    (runTrials (startSession n_done oldFile) m).trial = (m : Int) - 1 ∧
      (runTrials (startSession n_done oldFile) m).rows =
        (List.range m).map Int.ofNat ∧
      (1 ≤ m → (runTrials (startSession n_done oldFile) m).file =
        (List.range m).map Int.ofNat) := by
  induction m with
  | zero =>
    refine ⟨rfl, rfl, fun h => absurd h (by omega)⟩
  | succ k ih =>
    obtain ⟨ht, hr, _⟩ := ih
    have hstep : runTrials (startSession n_done oldFile) (k + 1) =
        doTrial (runTrials (startSession n_done oldFile) k) := rfl
    have hlast : (runTrials (startSession n_done oldFile) k).trial + 1 =
        Int.ofNat k := by
      rw [ht]
      show (k : Int) - 1 + 1 = (k : Int)
      ring
    refine ⟨?_, ?_, fun _ => ?_⟩
    · rw [hstep, doTrial_trial, ht]
      push_cast
      ring
    · rw [hstep, doTrial_rows, hr, hlast, List.range_succ, List.map_append]
      rfl
    · rw [hstep, doTrial_file, hr, hlast, List.range_succ, List.map_append]
      rfl
/-- C8: for every numeric environment whose clamping epsilon satisfies
`0 < ε < 1/2`, every side flag, every discriminant value and every noise
scale `σ > 0`, the Likelihood Evaluator's response probability is strictly
between 0 and 1 — never exactly 0 or 1 — because it is clamped to
`[ε, 1-ε]`. -/
theorem spec_C8_prob_strictly_between (env : NumEnv) (side : Nat)
    (d sigma : Rat) (h0 : 0 < env.eps) (h1 : env.eps < 1 / 2)
    (hs : 0 < sigma) :
    0 < respProbA env side d sigma ∧ respProbA env side d sigma < 1 := by
  unfold respProbA clampProb
  constructor
  · exact lt_of_lt_of_le h0 (le_max_left _ _)
  · apply max_lt
    · linarith
    · exact lt_of_le_of_lt (min_le_left _ _) (by linarith)

unseal Rat.mul Rat.add Rat.sub Rat.inv in
/-- Witness for C8 at the concrete environment `exEnv` (ε = 1/1000), side 0,
discriminant 0 and noise scale 1. -/
theorem spec_C8_prob_strictly_between_witness :
    0 < exEnv.eps ∧ exEnv.eps < 1 / 2 ∧ (0 : Rat) < 1 ∧
      (0 < respProbA exEnv 0 0 1 ∧ respProbA exEnv 0 0 1 < 1) :=
  ⟨by decide, by decide, by decide,
    spec_C8_prob_strictly_between exEnv 0 0 1 (by decide) (by decide)
      (by decide)⟩

/-- C10: the 2026_s1 session-resume logic has no effect on trial numbering:
the resume handling computes `trial = n_done - 1`, the state-machine setup
overwrites the counter with `-1` for every `n_done`, the resumed session
records trials numbered `0 .. m-1`, and after `m ≥ 1` completed trials the
day file holds exactly this session's rows — the previously recorded trials
are overwritten. -/
theorem spec_C10_resume_restarts_and_overwrites (n_done : Nat)
    (oldFile : List Int) (m : Nat) :
    resumeTrial n_done = (n_done : Int) - 1 ∧
      (startSession n_done oldFile).trial = -1 ∧
      (runTrials (startSession n_done oldFile) m).rows =
        (List.range m).map Int.ofNat ∧
      (1 ≤ m → (runTrials (startSession n_done oldFile) m).file =
        (List.range m).map Int.ofNat) := by
  obtain ⟨_, hr, hf⟩ := runTrials_spec n_done oldFile m
  exact ⟨rfl, rfl, hr, hf⟩

/-- Witness for C10: resuming after 5 recorded trials, completing 2 trials. -/
theorem spec_C10_resume_restarts_and_overwrites_witness :
    resumeTrial 5 = (5 : Int) - 1 ∧
      (startSession 5 [0, 1, 2, 3, 4]).trial = -1 ∧
      (runTrials (startSession 5 [0, 1, 2, 3, 4]) 2).rows =
        (List.range 2).map Int.ofNat ∧
      (runTrials (startSession 5 [0, 1, 2, 3, 4]) 2).file =
        (List.range 2).map Int.ofNat :=
  have h := spec_C10_resume_restarts_and_overwrites 5 [0, 1, 2, 3, 4] 2
  ⟨h.1, h.2.1, h.2.2.1, h.2.2.2 (by omega)⟩

/-- C6: the engine is deterministic and idempotent over an unchanged trial
table: re-running the fitting engine yields the same Fit Results, and the
load branch — selection over the persisted table restricted to the columns
subject, day, model, bic, p — yields exactly the Best-Model Assignments of
the fit branch. -/
theorem spec_C6_rerun_identical (env : NumEnv) (d : List PTrial) :
    fitAll env d = fitAll env d ∧ dbmOutFit env d = dbmOutLoad env d := by
  refine ⟨rfl, ?_⟩
  have hload : (fitAll env d).map toDbmLoad =
      ((fitAll env d).map toDbmFit).map stripNll := by
    rw [List.map_map]
    rfl
  rw [dbmOutFit, dbmOutLoad, hload, selectBest_strip]

/-- C9: the fitting engine consumes only the at-home training trials: every
trial it fits comes from a file whose raw day label is not 22, 23 or 24;
dual-task and button-switch files are never routed into the training table;
and the Stroop columns never influence the Fit Results, so the
inclusion/exclusion filters (which act on them) cannot remove a subject from
the fits. -/
theorem spec_C9_fit_scope (files : List HomeFile) (env : NumEnv)
    (d : List PTrial) :
    ((∀ f ∈ files, ∀ r ∈ f.rows, r.day = f.day) →
      ∀ r ∈ trainRows files, ¬(r.day = 22 ∨ r.day = 23 ∨ r.day = 24)) ∧
    (∀ f ∈ files, f ∈ df_dt_rec files ∨ f ∈ df_bs_rec files →
      f ∉ df_train_rec files) ∧
    fitAll env (d.map scrubStroop) = fitAll env d := by
  refine ⟨?_, ?_, fitAll_scrub env d⟩
  · intro hday r hr
    obtain ⟨f, hf, hrf⟩ := List.mem_flatMap.mp hr
    have hfil := List.mem_filter.mp hf
    have hdayr := hday f hfil.1 r hrf
    have hcond := hfil.2
    rw [hdayr]
    intro hor
    rcases hor with h | h | h <;> simp [h] at hcond
  · intro f _ hroute hmem
    have h1 := (List.mem_filter.mp hmem).2
    simp only [Bool.not_eq_true', Bool.or_eq_false_iff, decide_eq_false_iff_not]
      at h1
    rcases hroute with hdt | hbs
    · have h2 := (List.mem_filter.mp hdt).2
      simp only [decide_eq_true_eq] at h2
      exact h1.1.1 h2
    · have h2 := (List.mem_filter.mp hbs).2
      simp only [Bool.or_eq_true, decide_eq_true_eq] at h2
      rcases h2 with h2 | h2
      · exact h1.1.2 h2
      · exact h1.2 h2

/-- Witness for C9 at concrete files (a day-1 training file and a day-22
dual-task file) and the empty processed table. -/
theorem spec_C9_fit_scope_witness :
    (∀ r ∈ trainRows wFiles, ¬(r.day = 22 ∨ r.day = 23 ∨ r.day = 24)) ∧
      fitAll exEnv (([] : List PTrial).map scrubStroop) = fitAll exEnv [] :=
  ⟨(spec_C9_fit_scope wFiles exEnv []).1 (by decide),
    (spec_C9_fit_scope wFiles exEnv []).2.2⟩
/-- C1 (corrected): the sample size `n` plugged into the BIC of every Fit
Result is the fixed `block_size` handed in at the call site — not the
group's trial count — and the BIC is computed as `k * ln(n) + 2 * NLL_min`
with that `n`. -/
theorem spec_C1_bic_uses_block_size (env : NumEnv) (d : List PTrial)
    (fr : FitRow) (h : fr ∈ fitAll env d) :
    fr.res.n = block_size ∧
      fr.res.bic = (fr.res.k : Rat) * env.logq (block_size : Rat) +
        2 * fr.res.nll := by
  obtain ⟨g, hg, rc, hrc, hfr⟩ := mem_fitAll h
  obtain ⟨hn, hb, _⟩ := fit_dbm_fields hrc
  rw [hfr]
  exact ⟨hn, hb⟩

unseal Rat.mul Rat.add Rat.sub Rat.inv in
/-- Witness for C1's corrected statement at a concrete run. -/
theorem spec_C1_bic_uses_block_size_witness :
    ((fitAll exEnv (pipelineD wRows1)).getD 0 default) ∈
        fitAll exEnv (pipelineD wRows1) ∧
      ((fitAll exEnv (pipelineD wRows1)).getD 0 default).res.n = block_size ∧
      ((fitAll exEnv (pipelineD wRows1)).getD 0 default).res.bic =
        ((((fitAll exEnv (pipelineD wRows1)).getD 0 default).res.k : Rat)) *
            exEnv.logq (block_size : Rat) +
          2 * ((fitAll exEnv (pipelineD wRows1)).getD 0 default).res.nll :=
  have h : ((fitAll exEnv (pipelineD wRows1)).getD 0 default) ∈
      fitAll exEnv (pipelineD wRows1) := by decide
  ⟨h, (spec_C1_bic_uses_block_size exEnv (pipelineD wRows1) _ h).1,
    (spec_C1_bic_uses_block_size exEnv (pipelineD wRows1) _ h).2⟩

unseal Rat.mul Rat.add Rat.sub Rat.inv in
/-- Counterexample to C1 as stated: a (participant, day) group of 30 trials —
a count different from `block_size = 25` — whose Fit Result records sample
size `n = 25`, not the 30 trials actually fit. -/
theorem spec_C1_cex :
    (groupTrials (pipelineD c1rows) (1, 1)).length = 30 ∧
      (groupTrials (pipelineD c1rows) (1, 1)).length ≠ block_size ∧
      ((fitAll exEnv (pipelineD c1rows)).getD 0 default) ∈
        fitAll exEnv (pipelineD c1rows) ∧
      ((fitAll exEnv (pipelineD c1rows)).getD 0 default).subject = 1 ∧
      ((fitAll exEnv (pipelineD c1rows)).getD 0 default).day = 1 ∧
      ((fitAll exEnv (pipelineD c1rows)).getD 0 default).res.n = block_size ∧
      ((fitAll exEnv (pipelineD c1rows)).getD 0 default).res.n ≠
        (groupTrials (pipelineD c1rows) (1, 1)).length := by
  decide

/-- C2: within every (participant, day) group of the fit-results table, the
assigned best model attains the group's minimum BIC, the minimum is a lower
bound on every BIC of the group, and on exact BIC ties the assigned model
name is lexicographically least among the tied rows. -/
theorem spec_C2_min_bic_lex_tie (t : List DbmRow) (g : Nat × Nat)
    (hg : g ∈ dbmKeys t) :
    (∃ r ∈ groupRows t g, r.model = assign_best_model (groupRows t g) ∧
        r.bic = minBic (groupRows t g)) ∧
      (∀ r ∈ groupRows t g, minBic (groupRows t g) ≤ r.bic) ∧
      (∀ r ∈ groupRows t g, r.bic = minBic (groupRows t g) →
        (assign_best_model (groupRows t g)).data ≤ r.model.data) :=
  ⟨abm_attained (groupRows_ne_nil hg), fun _ hr => minBic_le hr,
    fun _ hr hb => abm_minimal hr hb⟩

/-- Witness for C2 at a concrete group with a BIC tie between `nll_glc_0`
and `nll_unix_0`; the lexicographically first name `nll_glc_0` wins. -/
theorem spec_C2_min_bic_lex_tie_witness :
    (1, 1) ∈ dbmKeys w2rows ∧
      assign_best_model (groupRows w2rows (1, 1)) = "nll_glc_0" ∧
      ((∃ r ∈ groupRows w2rows (1, 1),
          r.model = assign_best_model (groupRows w2rows (1, 1)) ∧
            r.bic = minBic (groupRows w2rows (1, 1))) ∧
        (∀ r ∈ groupRows w2rows (1, 1),
          minBic (groupRows w2rows (1, 1)) ≤ r.bic) ∧
        (∀ r ∈ groupRows w2rows (1, 1),
          r.bic = minBic (groupRows w2rows (1, 1)) →
            (assign_best_model (groupRows w2rows (1, 1))).data ≤
              r.model.data)) :=
  ⟨by decide, by decide, spec_C2_min_bic_lex_tie w2rows (1, 1) (by decide)⟩

/-- C4: every (participant, day) group present in the trial table yields
exactly six Fit Results, one per family×side combination with side in
{0, 1}, and the parameter count is fixed by the family: 2 for unix, 2 for
uniy, 3 for glc (the trailing entries of the call site's `side` and `k`
lists are unused). -/
theorem spec_C4_six_fit_results (env : NumEnv) (d : List PTrial)
    (g : Nat × Nat) (hg : g ∈ fitKeys d) :
    ((fitAll env d).filter (fun r => (r.subject, r.day) = g)).map
        (fun r => (r.res.model, r.res.side, r.res.k)) =
      [("nll_unix_0", 0, 2), ("nll_unix_1", 1, 2), ("nll_uniy_0", 0, 2),
       ("nll_uniy_1", 1, 2), ("nll_glc_0", 0, 3), ("nll_glc_1", 1, 3)] := by
  rw [fitAll_filter_key hg, List.map_map]
  exact fit_dbm_proj env (groupTrials d g) block_size

unseal Rat.mul Rat.add Rat.sub Rat.inv in
/-- Witness for C4 at a concrete one-trial table. -/
theorem spec_C4_six_fit_results_witness :
    (1, 1) ∈ fitKeys (pipelineD wRows1) ∧
      ((fitAll exEnv (pipelineD wRows1)).filter
          (fun r => (r.subject, r.day) = (1, 1))).map
        (fun r => (r.res.model, r.res.side, r.res.k)) =
      [("nll_unix_0", 0, 2), ("nll_unix_1", 1, 2), ("nll_uniy_0", 0, 2),
       ("nll_uniy_1", 1, 2), ("nll_glc_0", 0, 3), ("nll_glc_1", 1, 3)] :=
  ⟨by decide, spec_C4_six_fit_results exEnv (pipelineD wRows1) (1, 1)
    (by decide)⟩
/-- C5: for a fit-results table whose groups carry pairwise-distinct model
names, every (participant, day) group present in the table yields exactly
one Best-Model Assignment row, and a group absent from the table yields
none. -/
theorem spec_C5_one_row_per_group (t : List DbmRow)
    (hw : ∀ g', ((groupRows t g').map (fun q => q.model)).Nodup)
    (g : Nat × Nat) :
    ((selectBest t).filter (fun b => (b.subject, b.day) = g)).length =
      if g ∈ dbmKeys t then 1 else 0 := by
  have hkeyed : ∀ g' (b : BestPre), b ∈ bestGroup t g' →
      (b.subject, b.day) = g' := fun _ _ hb => bestGroup_key hb
  have hnd_each : ∀ g', (bestGroup t g').Nodup := by
    intro g'
    by_cases hg' : g' ∈ dbmKeys t
    · obtain ⟨r, _, heq⟩ := bestGroup_single hw hg'
      rw [heq]
      exact List.nodup_singleton _
    · rw [bestGroup_nil hg']
      exact List.nodup_nil
  have hbr_nodup : (bestRows t).Nodup :=
    nodup_flatMap_of_keys _ _ (fun b => (b.subject, b.day)) hkeyed hnd_each
      (List.nodup_dedup _)
  have hded : (bestRows t).dedup = bestRows t := List.dedup_eq_self.mpr hbr_nodup
  rw [selectBest, hded, List.filter_map, List.length_map]
  have hpred : ((fun b : BestRow => decide ((b.subject, b.day) = g)) ∘ addClass)
      = (fun b : BestPre => decide ((b.subject, b.day) = g)) := rfl
  rw [hpred, bestRows]
  by_cases hg : g ∈ dbmKeys t
  · rw [if_pos hg, filter_flatMap_of_mem (dbmKeys t) (bestGroup t)
      (fun b => (b.subject, b.day)) hkeyed g (List.nodup_dedup _) hg]
    obtain ⟨r, _, heq⟩ := bestGroup_single hw hg
    rw [heq]
    rfl
  · rw [if_neg hg, filter_flatMap_of_not_mem (dbmKeys t) (bestGroup t)
      (fun b => (b.subject, b.day)) hkeyed g hg]
    rfl

/-- Witness for C5 at a concrete three-row group: one output row for the
present group, none for an absent one. -/
theorem spec_C5_one_row_per_group_witness :
    (∀ g', ((groupRows w2rows g').map (fun q => q.model)).Nodup) ∧
      ((selectBest w2rows).filter
          (fun b => (b.subject, b.day) = ((1 : Nat), (1 : Nat)))).length =
        (if ((1 : Nat), (1 : Nat)) ∈ dbmKeys w2rows then 1 else 0) ∧
      ((selectBest w2rows).filter
          (fun b => (b.subject, b.day) = ((2 : Nat), (1 : Nat)))).length =
        (if ((2 : Nat), (1 : Nat)) ∈ dbmKeys w2rows then 1 else 0) :=
  have hw : ∀ g', ((groupRows w2rows g').map (fun q => q.model)).Nodup := by
    intro g'
    have hs : (groupRows w2rows g').Sublist w2rows := List.filter_sublist _
    exact List.Nodup.sublist (hs.map (fun q : DbmRow => q.model)) (by decide)
  ⟨hw, spec_C5_one_row_per_group w2rows hw (1, 1),
    spec_C5_one_row_per_group w2rows hw (2, 1)⟩
/-- C3: in every Best-Model Assignment produced from a fitted table, the
strategy class is `procedural` exactly when the winning model's family is
`glc`, and `rule-based` exactly when the winning family is one of the other
two families (`unix` or `uniy`). -/
theorem spec_C3_strategy_class (env : NumEnv) (d : List PTrial) (r : BestRow)
    (h : r ∈ dbmOutFit env d) :
    (r.best_model_class = "procedural" ↔ familyOf r.best_model = "glc") ∧
      (r.best_model_class = "rule-based" ↔
        (familyOf r.best_model = "unix" ∨ familyOf r.best_model = "uniy")) := by
  obtain ⟨b, hb, hr⟩ := mem_selectBest h
  obtain ⟨g, hg, hbg⟩ := List.mem_flatMap.mp hb
  obtain ⟨q, hq, hqm⟩ := bestGroup_model hbg
  have hm : b.best_model ∈ model_names := hqm ▸ fitTable_model hq
  subst hr
  show (classOf b.best_model = "procedural" ↔
      familyOf b.best_model = "glc") ∧
    (classOf b.best_model = "rule-based" ↔
      (familyOf b.best_model = "unix" ∨ familyOf b.best_model = "uniy"))
  simp only [model_names, List.mem_cons, List.not_mem_nil, or_false] at hm
  rcases hm with h' | h' | h' | h' | h' | h' <;> rw [h'] <;> exact ⟨by decide, by decide⟩
unseal Rat.mul Rat.add Rat.sub Rat.inv in
/-- Witness for C3 at a concrete run whose winning model is `nll_unix_0`
(class `rule-based`). -/
theorem spec_C3_strategy_class_witness :
    ((dbmOutFit exEnv (pipelineD wRows1)).getD 0 default) ∈
        dbmOutFit exEnv (pipelineD wRows1) ∧
      ((((dbmOutFit exEnv (pipelineD wRows1)).getD 0
            default).best_model_class = "procedural" ↔
        familyOf ((dbmOutFit exEnv (pipelineD wRows1)).getD 0
            default).best_model = "glc") ∧
       (((dbmOutFit exEnv (pipelineD wRows1)).getD 0
            default).best_model_class = "rule-based" ↔
        (familyOf ((dbmOutFit exEnv (pipelineD wRows1)).getD 0
            default).best_model = "unix" ∨
         familyOf ((dbmOutFit exEnv (pipelineD wRows1)).getD 0
            default).best_model = "uniy"))) :=
  have h : ((dbmOutFit exEnv (pipelineD wRows1)).getD 0 default) ∈
      dbmOutFit exEnv (pipelineD wRows1) := by decide
  ⟨h, spec_C3_strategy_class exEnv (pipelineD wRows1) _ h⟩

/-- C7 (corrected): for every trial table and every row of the processed
table, the block index is the stored trial index divided by `block_size`,
where the stored trial index is the participant's cumulative trial count
across all of the participant's rows (`d.groupby(['subject']).cumcount()`) —
not the trial index within the day. -/
theorem spec_C7_block_of_cumcount (rows : List TrialRow) (i : Nat)
    (hi : i < (pipelineD rows).length) :
    ((pipelineD rows).getD i default).block =
      ((pipelineD rows).getD i default).trialIdx / block_size ∧
    ((pipelineD rows).getD i default).trialIdx =
      ((sortRows rows).take i).countP
        (fun q => q.subject = ((sortRows rows).getD i default).subject) := by
  have hi' : i < (sortRows rows).length := by
    simpa [pipelineD] using hi
  have hget : (pipelineD rows).getD i default =
      { row := (sortRows rows).getD i default
        dayRank := denseDayRank (sortRows rows)
          ((sortRows rows).getD i default).subject
          ((sortRows rows).getD i default).day
        trialIdx := ((sortRows rows).take i).countP
          (fun q => q.subject = ((sortRows rows).getD i default).subject)
        block := (((sortRows rows).take i).countP
          (fun q => q.subject = ((sortRows rows).getD i default).subject)) /
            block_size } := by
    rw [List.getD_eq_getElem _ _ hi]
    show (List.map _ (List.range (sortRows rows).length))[i] = _
    rw [List.getElem_map, List.getElem_range]
  rw [hget]
  exact ⟨rfl, rfl⟩

/-- Witness for C7's corrected statement at a concrete one-row table. -/
theorem spec_C7_block_of_cumcount_witness :
    0 < (pipelineD wRows1).length ∧
      ((pipelineD wRows1).getD 0 default).block =
        ((pipelineD wRows1).getD 0 default).trialIdx / block_size ∧
      ((pipelineD wRows1).getD 0 default).trialIdx =
        ((sortRows wRows1).take 0).countP
          (fun q => q.subject = ((sortRows wRows1).getD 0 default).subject) :=
  have h : 0 < (pipelineD wRows1).length := by decide
  ⟨h, (spec_C7_block_of_cumcount wRows1 0 h).1,
    (spec_C7_block_of_cumcount wRows1 0 h).2⟩

/-- Counterexample to C7 as stated: in `c7rows` the participant's first day
has 26 trials, so the first trial of the second day (row 26 of the processed
table) has within-day trial index 0, yet its block index is 1 — the block
index is not the within-day trial index divided by `block_size`, and the
first block of that (participant, day) is not 0. -/
theorem spec_C7_cex :
    26 < (pipelineD c7rows).length ∧
      ((pipelineD c7rows).getD 26 default).dayRank = 2 ∧
      withinDayIdx (pipelineD c7rows) 26 = 0 ∧
      ((pipelineD c7rows).getD 26 default).block = 1 ∧
      ((pipelineD c7rows).getD 26 default).block ≠
        withinDayIdx (pipelineD c7rows) 26 / block_size := by
  decide
